import Mathlib

/-!
Shallow embedding of `figaro/coordinates.py`.

An `(N,3)` numpy array is modelled as a `List Vec3`, where `Vec3` holds the three
columns of one row as real numbers.  Floating-point arithmetic is idealised as
real arithmetic; `np.arctan2` is the complex argument, `np.linalg.norm` the
Euclidean norm, `np.arcsin`, `np.sin`, `np.cos` the real functions of the same
name.  The IEEE behaviour of `1/x` at `x = 0` (division by zero producing
infinity, not an exception) is modelled by `npRecip`, valued in the extended
reals.  A second model (`NpArr`, further below) keeps track of array
dimensionality in order to express the `np.atleast_2d` promotion behaviour and
the failure of 2-D column indexing on 1-D input.
-/

namespace Figaro

/-- One row of an `(N,3)` array: three real components, the columns `[:,0]`,
`[:,1]`, `[:,2]`. -/
structure Vec3 where
  c0 : ℝ
  c1 : ℝ
  c2 : ℝ

/-- Euclidean norm of one row, `np.linalg.norm` on a 3-vector. -/
noncomputable def norm3 (v : Vec3) : ℝ :=
  Real.sqrt (v.c0 ^ 2 + v.c1 ^ 2 + v.c2 ^ 2)

/-- Model of `np.arctan2 a b`: the angle of the planar point with first
coordinate `b` and second coordinate `a`, in `(-pi, pi]`, with
`np.arctan2 0 0 = 0`.  This is the argument of the complex number `b + a*I`. -/
noncomputable def atan2 (a b : ℝ) : ℝ :=
  Complex.arg { re := b, im := a }

/-- Row-wise body of `cartesian_to_spherical` (coordinates.py lines 15-20):
`r` is the norm, `unit` the normalised row, `theta = arcsin(unit[2])`,
`phi = arctan2(unit[0], unit[1])` shifted by `2*pi` when negative; the output
row is `[r, theta, phi]`. -/
noncomputable def cart_to_sph_row (v : Vec3) : Vec3 :=
  let r := norm3 v
  let u0 := v.c0 / norm3 v
  let u1 := v.c1 / norm3 v
  let u2 := v.c2 / norm3 v
  let theta := Real.arcsin u2
  let phiRaw := atan2 u0 u1
  let phi := if phiRaw < 0 then phiRaw + 2 * Real.pi else phiRaw
  ⟨r, theta, phi⟩

/-- `cartesian_to_spherical` on an `(N,3)` batch: all steps are row-wise. -/
noncomputable def cartesian_to_spherical (vs : List Vec3) : List Vec3 :=
  vs.map cart_to_sph_row

/-- Row-wise body of `spherical_to_cartesian` (coordinates.py lines 36-41):
`cos_theta = cos(vector[:,1])`, `x = vector[:,2]*sin(vector[:,0])*cos_theta`,
`y = vector[:,2]*cos(vector[:,0])*cos_theta`, `z = vector[:,2]*sin(vector[:,1])`. -/
noncomputable def sph_to_cart_row (v : Vec3) : Vec3 :=
  let cos_theta := Real.cos v.c1
  ⟨v.c2 * Real.sin v.c0 * cos_theta, v.c2 * Real.cos v.c0 * cos_theta,
    v.c2 * Real.sin v.c1⟩

/-- `spherical_to_cartesian` on an `(N,3)` batch. -/
noncomputable def spherical_to_cartesian (vs : List Vec3) : List Vec3 :=
  vs.map sph_to_cart_row

/-- `celestial_to_cartesian`: on a 2-D batch the `np.atleast_2d` coercion is the
identity and the function delegates to `spherical_to_cartesian`. -/
noncomputable def celestial_to_cartesian (vs : List Vec3) : List Vec3 :=
  spherical_to_cartesian vs

/-- Column permutation performed by `cartesian_to_celestial` on the spherical
result: `D = [:,0]`, `dec = [:,1]`, `ra = [:,2]`, output `[ra, dec, D]`. -/
def cel_reorder (s : Vec3) : Vec3 :=
  ⟨s.c2, s.c1, s.c0⟩

/-- `cartesian_to_celestial`: run `cartesian_to_spherical`, then output the
columns as `[ra, dec, D] = [phi, theta, r]`. -/
noncomputable def cartesian_to_celestial (vs : List Vec3) : List Vec3 :=
  (cartesian_to_spherical vs).map cel_reorder

/-- `Jacobian_in_celestial` (coordinates.py lines 108-110):
`d = [:,2]`, `theta = [:,1]`, result `d*d*cos(theta)` per row. -/
noncomputable def Jacobian_in_celestial (vs : List Vec3) : List ℝ :=
  vs.map fun v => v.c2 * v.c2 * Real.cos v.c1

/-- `Jacobian`: convert to celestial coordinates, then `Jacobian_in_celestial`. -/
noncomputable def Jacobian (vs : List Vec3) : List ℝ :=
  Jacobian_in_celestial (cartesian_to_celestial vs)

/-- IEEE reciprocal `1/x` as an extended real: division of one by zero yields
`+inf` rather than raising.  The real-number model has a single zero,
corresponding to IEEE `+0.0`. -/
noncomputable def npRecip (x : ℝ) : EReal :=
  if x = 0 then ⊤ else ((1 / x : ℝ) : EReal)

/-- `inv_Jacobian`: element-wise `1/detJ` with
`detJ = Jacobian_in_celestial(...)`. -/
noncomputable def inv_Jacobian (vs : List Vec3) : List EReal :=
  (Jacobian_in_celestial vs).map npRecip

/- Basic facts about the norm. -/

theorem norm3_nonneg (v : Vec3) : 0 ≤ norm3 v :=
  Real.sqrt_nonneg _

theorem norm3_pos (v : Vec3) (h : norm3 v ≠ 0) : 0 < norm3 v :=
  lt_of_le_of_ne (norm3_nonneg v) (Ne.symm h)

theorem sq_norm3 (v : Vec3) : norm3 v ^ 2 = v.c0 ^ 2 + v.c1 ^ 2 + v.c2 ^ 2 :=
  Real.sq_sqrt (by positivity)

/- The azimuth normalisation step does not change sine or cosine. -/

theorem sin_shift (p : ℝ) :
    Real.sin (if p < 0 then p + 2 * Real.pi else p) = Real.sin p := by
  split
  · exact Real.sin_add_two_pi p
  · rfl

theorem cos_shift (p : ℝ) :
    Real.cos (if p < 0 then p + 2 * Real.pi else p) = Real.cos p := by
  split
  · exact Real.cos_add_two_pi p
  · rfl

/-- Sine of the two-argument arctangent, via the complex argument. -/
theorem sin_atan2 (a b : ℝ) :
    Real.sin (atan2 a b) = a / Real.sqrt (b ^ 2 + a ^ 2) := by
  rw [atan2, Complex.sin_arg, Complex.abs_apply, Complex.normSq_mk,
    show b * b + a * a = b ^ 2 + a ^ 2 by ring]

/-- Cosine of the two-argument arctangent, away from the origin. -/
theorem cos_atan2 (a b : ℝ) (hab : ¬(a = 0 ∧ b = 0)) :
    Real.cos (atan2 a b) = b / Real.sqrt (b ^ 2 + a ^ 2) := by
  have hz : ({ re := b, im := a } : ℂ) ≠ 0 := by
    intro h0
    apply hab
    constructor
    · simpa using congrArg Complex.im h0
    · simpa using congrArg Complex.re h0
  rw [atan2, Complex.cos_arg hz, Complex.abs_apply, Complex.normSq_mk,
    show b * b + a * a = b ^ 2 + a ^ 2 by ring]

/-- Core round-trip identity: converting a row with non-zero norm to spherical
coordinates, permuting the result into the column order `spherical_to_cartesian`
consumes (`[phi, theta, r]`, which is exactly `cel_reorder`), and converting
back yields the original row. -/
theorem roundtrip_row (v : Vec3) (h : norm3 v ≠ 0) :
    sph_to_cart_row (cel_reorder (cart_to_sph_row v)) = v := by
  obtain ⟨a, b, c⟩ := v
  have hr : 0 < norm3 ⟨a, b, c⟩ := norm3_pos _ h
  have hr2 : norm3 ⟨a, b, c⟩ ^ 2 = a ^ 2 + b ^ 2 + c ^ 2 := sq_norm3 _
  simp only [cart_to_sph_row, cel_reorder, sph_to_cart_row, Vec3.mk.injEq]
  rw [sin_shift, cos_shift]
  set r := norm3 ⟨a, b, c⟩ with hrdef
  have hcle : c ^ 2 ≤ r ^ 2 := by nlinarith [sq_nonneg a, sq_nonneg b]
  have hc1 : -1 ≤ c / r := by
    rw [le_div_iff₀ hr]
    nlinarith [sq_nonneg (c + r)]
  have hc2 : c / r ≤ 1 := by
    rw [div_le_one hr]
    nlinarith [sq_nonneg (c - r)]
  have hcosarc :
      Real.cos (Real.arcsin (c / r)) = Real.sqrt (a ^ 2 + b ^ 2) / r := by
    rw [Real.cos_arcsin]
    have h1 : (1 : ℝ) - (c / r) ^ 2 = (a ^ 2 + b ^ 2) / r ^ 2 := by
      field_simp
      linarith [hr2]
    rw [h1, Real.sqrt_div (by positivity), Real.sqrt_sq hr.le]
  have hsqrt : Real.sqrt ((b / r) ^ 2 + (a / r) ^ 2) =
      Real.sqrt (a ^ 2 + b ^ 2) / r := by
    rw [show (b / r) ^ 2 + (a / r) ^ 2 = (a ^ 2 + b ^ 2) / r ^ 2 by ring,
      Real.sqrt_div (by positivity), Real.sqrt_sq hr.le]
  refine ⟨?_, ?_, ?_⟩
  · rw [hcosarc, sin_atan2, hsqrt]
    by_cases hab : a = 0 ∧ b = 0
    · obtain ⟨ha, hb⟩ := hab
      subst ha; subst hb
      simp
    · have hab2 : (0 : ℝ) < a ^ 2 + b ^ 2 := by
        rcases not_and_or.mp hab with hne | hne
        · have h2 : 0 < a ^ 2 :=
            lt_of_le_of_ne (sq_nonneg a) (Ne.symm (pow_ne_zero 2 hne))
          nlinarith [sq_nonneg b]
        · have h2 : 0 < b ^ 2 :=
            lt_of_le_of_ne (sq_nonneg b) (Ne.symm (pow_ne_zero 2 hne))
          nlinarith [sq_nonneg a]
      have hs : 0 < Real.sqrt (a ^ 2 + b ^ 2) := Real.sqrt_pos.mpr hab2
      field_simp
  · by_cases hab : a = 0 ∧ b = 0
    · obtain ⟨ha, hb⟩ := hab
      subst ha; subst hb
      rw [hcosarc]
      simp
    · have hab3 : ¬(a / r = 0 ∧ b / r = 0) := by
        rintro ⟨h1v, h2v⟩
        apply hab
        constructor
        · rcases div_eq_zero_iff.mp h1v with hv | hv
          · exact hv
          · exact absurd hv hr.ne'
        · rcases div_eq_zero_iff.mp h2v with hv | hv
          · exact hv
          · exact absurd hv hr.ne'
      have hab2 : (0 : ℝ) < a ^ 2 + b ^ 2 := by
        rcases not_and_or.mp hab with hne | hne
        · have h2 : 0 < a ^ 2 :=
            lt_of_le_of_ne (sq_nonneg a) (Ne.symm (pow_ne_zero 2 hne))
          nlinarith [sq_nonneg b]
        · have h2 : 0 < b ^ 2 :=
            lt_of_le_of_ne (sq_nonneg b) (Ne.symm (pow_ne_zero 2 hne))
          nlinarith [sq_nonneg a]
      have hs : 0 < Real.sqrt (a ^ 2 + b ^ 2) := Real.sqrt_pos.mpr hab2
      rw [hcosarc, cos_atan2 (a / r) (b / r) hab3, hsqrt]
      field_simp
  · rw [Real.sin_arcsin hc1 hc2]
    field_simp

/- Concrete evaluations used by the boundary-value claims. -/

theorem atan2_zero_zero : atan2 0 0 = 0 := by
  have h0 : ({ re := 0, im := 0 } : ℂ) = 0 := by
    apply Complex.ext <;> simp
  rw [atan2, h0, Complex.arg_zero]

theorem atan2_one_zero : atan2 1 0 = Real.pi / 2 := by
  have h0 : ({ re := 0, im := 1 } : ℂ) = Complex.I := by
    apply Complex.ext <;> simp
  rw [atan2, h0, Complex.arg_I]

theorem norm3_100 : norm3 ⟨1, 0, 0⟩ = 1 := by
  simp only [norm3]
  norm_num [Real.sqrt_one]

theorem norm3_001 : norm3 ⟨0, 0, 1⟩ = 1 := by
  simp only [norm3]
  norm_num [Real.sqrt_one]

theorem cart_to_sph_row_100 : cart_to_sph_row ⟨1, 0, 0⟩ = ⟨1, 0, Real.pi / 2⟩ := by
  have hnot : ¬(Real.pi / 2 < 0) := not_lt.mpr (by positivity)
  simp only [cart_to_sph_row, norm3_100]
  norm_num [Real.arcsin_zero, atan2_one_zero, hnot, Vec3.mk.injEq]

theorem cart_to_sph_row_001 : cart_to_sph_row ⟨0, 0, 1⟩ = ⟨1, Real.pi / 2, 0⟩ := by
  simp only [cart_to_sph_row, norm3_001]
  norm_num [Real.arcsin_one, atan2_zero_zero, Vec3.mk.injEq]

theorem sph_to_cart_row_e1 : sph_to_cart_row ⟨Real.pi / 2, 0, 1⟩ = ⟨1, 0, 0⟩ := by
  simp only [sph_to_cart_row]
  norm_num [Real.sin_pi_div_two, Real.cos_pi_div_two, Vec3.mk.injEq]

/-- Batch version of the round-trip identity. -/
theorem roundtrip_list (vs : List Vec3) (h : ∀ v ∈ vs, norm3 v ≠ 0) :
    spherical_to_cartesian ((cartesian_to_spherical vs).map cel_reorder) = vs := by
  simp only [spherical_to_cartesian, cartesian_to_spherical, List.map_map]
  conv_rhs => rw [← List.map_id vs]
  exact List.map_congr_left fun v hv => roundtrip_row v (h v hv)

/-- C1: on every batch whose rows all have non-zero Euclidean norm,
`celestial_to_cartesian` composed after `cartesian_to_celestial` returns the
original Cartesian batch; moreover `cartesian_to_celestial` sends `[1,0,0]` to
`[ra = pi/2, dec = 0, D = 1]` and `celestial_to_cartesian` maps that row back to
`[1,0,0]`.  (Amended from the claim: the right ascension of `[1,0,0]` is `pi/2`,
not approximately `0`.) -/
theorem claim_C1 (vs : List Vec3) (h : ∀ v ∈ vs, norm3 v ≠ 0) :
    celestial_to_cartesian (cartesian_to_celestial vs) = vs ∧
    cartesian_to_celestial [(⟨1, 0, 0⟩ : Vec3)] = [⟨Real.pi / 2, 0, 1⟩] ∧
    celestial_to_cartesian [(⟨Real.pi / 2, 0, 1⟩ : Vec3)] = [⟨1, 0, 0⟩] := by
  refine ⟨roundtrip_list vs h, ?_, ?_⟩
  · simp [cartesian_to_celestial, cartesian_to_spherical, cart_to_sph_row_100,
      cel_reorder]
  · simp [celestial_to_cartesian, spherical_to_cartesian, sph_to_cart_row_e1]

theorem claim_C1_witness :
    celestial_to_cartesian (cartesian_to_celestial [(⟨1, 0, 0⟩ : Vec3)]) =
      [⟨1, 0, 0⟩] :=
  (claim_C1 [⟨1, 0, 0⟩] (by
    intro v hv
    simp only [List.mem_singleton] at hv
    subst hv
    rw [norm3_100]
    exact one_ne_zero)).1

/-- C1 counterexample: the right ascension that `cartesian_to_celestial` returns
for the Cartesian vector `[1,0,0]` is `pi/2`, which lies strictly between `1`
and `2` and is therefore neither approximately `0` nor at the `2*pi` boundary. -/
theorem claim_C1_counterexample :
    cartesian_to_celestial [(⟨1, 0, 0⟩ : Vec3)] = [⟨Real.pi / 2, 0, 1⟩] ∧
    1 < Real.pi / 2 ∧ Real.pi / 2 < 2 := by
  refine ⟨?_, ?_, ?_⟩
  · simp [cartesian_to_celestial, cartesian_to_spherical, cart_to_sph_row_100,
      cel_reorder]
  · linarith [Real.pi_gt_three]
  · linarith [Real.pi_lt_four]

/-- C2: on every batch whose rows all have non-zero norm, converting to
spherical coordinates, permuting each output row `[r, theta, phi]` into the
column order `spherical_to_cartesian` actually consumes (`[phi, theta, r]`), and
applying `spherical_to_cartesian` returns the original Cartesian batch exactly. -/
theorem claim_C2 (vs : List Vec3) (h : ∀ v ∈ vs, norm3 v ≠ 0) :
    spherical_to_cartesian
      ((cartesian_to_spherical vs).map fun s => (⟨s.c2, s.c1, s.c0⟩ : Vec3)) = vs :=
  roundtrip_list vs h

theorem claim_C2_witness :
    spherical_to_cartesian
      ((cartesian_to_spherical [(⟨0, 0, 1⟩ : Vec3)]).map
        fun s => (⟨s.c2, s.c1, s.c0⟩ : Vec3)) = [⟨0, 0, 1⟩] :=
  claim_C2 [⟨0, 0, 1⟩] (by
    intro v hv
    simp only [List.mem_singleton] at hv
    subst hv
    rw [norm3_001]
    exact one_ne_zero)

/-- C3: `Jacobian_in_celestial` returns, per row, `D^2 * cos(dec)` where `D` is
column 2 and `dec` is column 1; on the rows `[0, 0, 2]` and `[0, pi/3, 2]` it
yields `4` and `2` respectively. -/
theorem claim_C3 (vs : List Vec3) :
    Jacobian_in_celestial vs = vs.map (fun v => v.c2 ^ 2 * Real.cos v.c1) ∧
    Jacobian_in_celestial [(⟨0, 0, 2⟩ : Vec3)] = [4] ∧
    Jacobian_in_celestial [(⟨0, Real.pi / 3, 2⟩ : Vec3)] = [2] := by
  refine ⟨?_, ?_, ?_⟩
  · simp only [Jacobian_in_celestial]
    exact List.map_congr_left fun v _ => by ring
  · norm_num [Jacobian_in_celestial]
  · norm_num [Jacobian_in_celestial, Real.cos_pi_div_three]

/-- C8: `cartesian_to_spherical` maps the single row `[0,0,1]` to
`[r = 1, theta = pi/2, phi = 0]`, the azimuth coming from the
`arctan2 0 0 = 0` branch (both normalised components in columns 0 and 1
vanish). -/
theorem claim_C8 :
    cartesian_to_spherical [(⟨0, 0, 1⟩ : Vec3)] = [⟨1, Real.pi / 2, 0⟩] ∧
    atan2 0 0 = 0 := by
  constructor
  · simp [cartesian_to_spherical, cart_to_sph_row_001]
  · exact atan2_zero_zero

/-- C4: `inv_Jacobian` is the element-wise reciprocal of `D^2 * cos(dec)`, and
on a row with `D = 0` the reciprocal is `+inf` (IEEE division-by-zero
pass-through; the function is total, no exception is modelled). -/
theorem claim_C4 (vs : List Vec3) :
    inv_Jacobian vs = vs.map (fun v => npRecip (v.c2 ^ 2 * Real.cos v.c1)) ∧
    ∀ v ∈ vs, v.c2 = 0 → npRecip (v.c2 ^ 2 * Real.cos v.c1) = ⊤ := by
  constructor
  · simp only [inv_Jacobian, Jacobian_in_celestial, List.map_map]
    exact List.map_congr_left fun v _ => congrArg npRecip (by ring)
  · intro v hv hc2
    rw [hc2]
    simp [npRecip]

theorem claim_C4_witness :
    npRecip ((Vec3.mk 0 0 0).c2 ^ 2 * Real.cos (Vec3.mk 0 0 0).c1) = ⊤ :=
  (claim_C4 [⟨0, 0, 0⟩]).2 ⟨0, 0, 0⟩ (List.mem_singleton.mpr rfl) rfl

/-- Row conversion exactly as the specification words it: `r` is the Euclidean
norm `sqrt(x^2+y^2+z^2)`, the row is normalised by its norm,
`theta = arcsin(unit.z)`, `phi = arctan2(unit.x, unit.y)` with `2*pi` added when
negative, and the output row is `[r, theta, phi]`. -/
noncomputable def spec_cart_to_sph_row (v : Vec3) : Vec3 :=
  let r := Real.sqrt (v.c0 ^ 2 + v.c1 ^ 2 + v.c2 ^ 2)
  let phiRaw := atan2 (v.c0 / r) (v.c1 / r)
  ⟨r, Real.arcsin (v.c2 / r),
    if phiRaw < 0 then phiRaw + 2 * Real.pi else phiRaw⟩

/-- C5: on a batch with no zero row, `cartesian_to_spherical` computes each row
exactly as described (norm, normalised components, `arcsin`, normalised
`arctan2`), returning one output row per input row in the same order. -/
theorem claim_C5 (vs : List Vec3) (h : ∀ v ∈ vs, norm3 v ≠ 0) :
    cartesian_to_spherical vs = vs.map spec_cart_to_sph_row ∧
    (cartesian_to_spherical vs).length = vs.length ∧
    ∀ i : ℕ, (cartesian_to_spherical vs)[i]? =
      vs[i]?.map spec_cart_to_sph_row := by
  refine ⟨rfl, ?_, ?_⟩
  · simp [cartesian_to_spherical]
  · intro i
    simp [cartesian_to_spherical, List.getElem?_map]
    rfl

theorem claim_C5_witness :
    cartesian_to_spherical [(⟨1, 0, 0⟩ : Vec3)] =
      [spec_cart_to_sph_row ⟨1, 0, 0⟩] :=
  (claim_C5 [⟨1, 0, 0⟩] (by
    intro v hv
    simp only [List.mem_singleton] at hv
    subst hv
    rw [norm3_100]
    exact one_ne_zero)).1

theorem neg_pi_lt_atan2 (a b : ℝ) : -Real.pi < atan2 a b :=
  Complex.neg_pi_lt_arg _

theorem atan2_le_pi (a b : ℝ) : atan2 a b ≤ Real.pi :=
  Complex.arg_le_pi _

/-- C6: every azimuth produced by `cartesian_to_spherical` lies in
`[0, 2*pi)` and every polar angle in `[-pi/2, pi/2]`. -/
theorem claim_C6 (vs : List Vec3) (h : ∀ v ∈ vs, norm3 v ≠ 0) :
    ∀ w ∈ cartesian_to_spherical vs,
      (0 ≤ w.c2 ∧ w.c2 < 2 * Real.pi) ∧
      -(Real.pi / 2) ≤ w.c1 ∧ w.c1 ≤ Real.pi / 2 := by
  intro w hw
  simp only [cartesian_to_spherical, List.mem_map] at hw
  obtain ⟨v, hv, rfl⟩ := hw
  simp only [cart_to_sph_row]
  refine ⟨⟨?_, ?_⟩, ?_, ?_⟩
  · split
    · have := neg_pi_lt_atan2 (v.c0 / norm3 v) (v.c1 / norm3 v)
      linarith [Real.pi_pos]
    · linarith [not_lt.mp (by assumption)]
  · split
    · linarith [Real.pi_pos, (by assumption : atan2 (v.c0 / norm3 v) (v.c1 / norm3 v) < 0)]
    · have := atan2_le_pi (v.c0 / norm3 v) (v.c1 / norm3 v)
      linarith [Real.pi_pos]
  · exact Real.neg_pi_div_two_le_arcsin _
  · exact Real.arcsin_le_pi_div_two _

theorem claim_C6_witness :
    (0 ≤ (cart_to_sph_row ⟨1, 0, 0⟩).c2 ∧
      (cart_to_sph_row ⟨1, 0, 0⟩).c2 < 2 * Real.pi) ∧
    -(Real.pi / 2) ≤ (cart_to_sph_row ⟨1, 0, 0⟩).c1 ∧
      (cart_to_sph_row ⟨1, 0, 0⟩).c1 ≤ Real.pi / 2 :=
  claim_C6 [⟨1, 0, 0⟩] (by
    intro v hv
    simp only [List.mem_singleton] at hv
    subst hv
    rw [norm3_100]
    exact one_ne_zero) (cart_to_sph_row ⟨1, 0, 0⟩) (by
      simp [cartesian_to_spherical])

/-- Concatenating the images of the one-element lists is the image of the
list. -/
theorem map_singleton_join {β : Type} (g : Vec3 → β) (xs : List Vec3) :
    (xs.map fun x => [g x]).flatten = xs.map g := by
  induction xs with
  | nil => rfl
  | cons x xs ih => simp [ih]

/-- C9: each of the six functions of the module acts row-wise: its value on a
batch is the concatenation of its values on the one-row batches formed from the
rows, so no row's output depends on any other row. -/
theorem claim_C9 (vs : List Vec3) :
    cartesian_to_spherical vs =
      (vs.map fun v => cartesian_to_spherical [v]).flatten ∧
    spherical_to_cartesian vs =
      (vs.map fun v => spherical_to_cartesian [v]).flatten ∧
    celestial_to_cartesian vs =
      (vs.map fun v => celestial_to_cartesian [v]).flatten ∧
    cartesian_to_celestial vs =
      (vs.map fun v => cartesian_to_celestial [v]).flatten ∧
    Jacobian vs = (vs.map fun v => Jacobian [v]).flatten ∧
    Jacobian_in_celestial vs =
      (vs.map fun v => Jacobian_in_celestial [v]).flatten ∧
    inv_Jacobian vs = (vs.map fun v => inv_Jacobian [v]).flatten := by
  refine ⟨?_, ?_, ?_, ?_, ?_, ?_, ?_⟩
  · exact (map_singleton_join cart_to_sph_row vs).symm
  · exact (map_singleton_join sph_to_cart_row vs).symm
  · exact (map_singleton_join sph_to_cart_row vs).symm
  · calc cartesian_to_celestial vs
        = vs.map fun v => cel_reorder (cart_to_sph_row v) := by
          simp [cartesian_to_celestial, cartesian_to_spherical, List.map_map,
            Function.comp]
      _ = (vs.map fun v => cartesian_to_celestial [v]).flatten :=
          (map_singleton_join _ vs).symm
  · calc Jacobian vs
        = vs.map fun v =>
            (cel_reorder (cart_to_sph_row v)).c2 *
              (cel_reorder (cart_to_sph_row v)).c2 *
              Real.cos (cel_reorder (cart_to_sph_row v)).c1 := by
          simp [Jacobian, Jacobian_in_celestial, cartesian_to_celestial,
            cartesian_to_spherical, List.map_map, Function.comp]
      _ = (vs.map fun v => Jacobian [v]).flatten :=
          (map_singleton_join _ vs).symm
  · exact (map_singleton_join _ vs).symm
  · calc inv_Jacobian vs
        = vs.map fun v => npRecip (v.c2 * v.c2 * Real.cos v.c1) := by
          simp [inv_Jacobian, Jacobian_in_celestial, List.map_map,
            Function.comp]
      _ = (vs.map fun v => inv_Jacobian [v]).flatten :=
          (map_singleton_join _ vs).symm

/-!
Dimension-tracking model.  `NpArr` distinguishes 1-D from 2-D arrays, so the
`np.atleast_2d` promotion and the failure of 2-D column indexing on 1-D input
are expressible; operations that would raise in numpy return `none`.
-/

/-- Numpy array of reals of dimension one or two (the only shapes the module
meets). -/
inductive NpArr : Type where
  | a1 (elems : List ℝ)
  | a2 (rows : List (List ℝ))

/-- Model of `np.atleast_2d`: a 1-D vector becomes a one-row matrix, a 2-D
array is unchanged. -/
def atleast_2d (A : NpArr) : NpArr :=
  match A with
  | .a1 v => .a2 [v]
  | .a2 rows => .a2 rows

/-- Entry `j` of every row, when each row is long enough. -/
def colList (rows : List (List ℝ)) (j : ℕ) : Option (List ℝ) :=
  match rows with
  | [] => some []
  | row :: rest =>
    match row[j]?, colList rest j with
    | some x, some xs => some (x :: xs)
    | _, _ => none

/-- Model of the 2-D indexing `A[:, j]`: defined only on 2-D arrays; on a 1-D
array the expression raises in numpy, modelled as `none`. -/
def colGet (A : NpArr) (j : ℕ) : Option (List ℝ) :=
  match A with
  | .a1 _ => none
  | .a2 rows => colList rows j

/-- Euclidean norm of a list of reals. -/
noncomputable def euclid (xs : List ℝ) : ℝ :=
  Real.sqrt ((xs.map fun x => x ^ 2).sum)

/-- Model of `np.linalg.norm(vector, axis=-1)`.  On 1-D input numpy returns a
scalar, modelled as a singleton list; the 1-D path fails at the later column
indexing before this value is consumed. -/
noncomputable def normAxisLast (A : NpArr) : List ℝ :=
  match A with
  | .a1 v => [euclid v]
  | .a2 rows => rows.map euclid

/-- Model of the comprehension `np.array([v/np.linalg.norm(v) for v in vector])`:
on a 2-D array each row is divided by its norm; on a 1-D array iteration yields
scalars, each divided by its own norm (its absolute value), giving again a 1-D
array. -/
noncomputable def unitArr (A : NpArr) : NpArr :=
  match A with
  | .a1 v => .a1 (v.map fun x => x / euclid [x])
  | .a2 rows => .a2 (rows.map fun row => row.map fun x => x / euclid row)

/-- Rows of `np.array([xs, ys, zs]).T`. -/
def zip3 (xs ys zs : List ℝ) : List (List ℝ) :=
  match xs, ys, zs with
  | x :: xs, y :: ys, z :: zs => [x, y, z] :: zip3 xs ys zs
  | _, _, _ => []

/-- Element-wise combination of three lists of equal length. -/
def zipWith3 (f : ℝ → ℝ → ℝ → ℝ) : List ℝ → List ℝ → List ℝ → List ℝ
  | x :: xs, y :: ys, z :: zs => f x y z :: zipWith3 f xs ys zs
  | _, _, _ => []

/-- Dimension-tracking `cartesian_to_spherical` (no `atleast_2d` in the
source): the 2-D column indexing of `unit` fails on 1-D input. -/
noncomputable def cartesian_to_spherical_np (A : NpArr) : Option NpArr :=
  let r := normAxisLast A
  let unit := unitArr A
  match colGet unit 2, colGet unit 0, colGet unit 1 with
  | some u2, some u0, some u1 =>
    let theta := u2.map Real.arcsin
    let phi := (List.zipWith atan2 u0 u1).map
      fun p => if p < 0 then p + 2 * Real.pi else p
    some (.a2 (zip3 r theta phi))
  | _, _, _ => none

/-- Dimension-tracking `spherical_to_cartesian` (no `atleast_2d` in the
source): the column indexing fails on 1-D input. -/
noncomputable def spherical_to_cartesian_np (A : NpArr) : Option NpArr :=
  match colGet A 1, colGet A 0, colGet A 2 with
  | some c1, some c0, some c2 =>
    let cosT := c1.map Real.cos
    let x := zipWith3 (fun d p ct => d * Real.sin p * ct) c2 c0 cosT
    let y := zipWith3 (fun d p ct => d * Real.cos p * ct) c2 c0 cosT
    let z := List.zipWith (fun d t => d * Real.sin t) c2 c1
    some (.a2 (zip3 x y z))
  | _, _, _ => none

/-- Dimension-tracking `celestial_to_cartesian`: `atleast_2d`, then delegate. -/
noncomputable def celestial_to_cartesian_np (A : NpArr) : Option NpArr :=
  spherical_to_cartesian_np (atleast_2d A)

/-- Dimension-tracking `cartesian_to_celestial`: `atleast_2d`, convert to
spherical, read the three columns, output `[ra, dec, D]`. -/
noncomputable def cartesian_to_celestial_np (A : NpArr) : Option NpArr :=
  match cartesian_to_spherical_np (atleast_2d A) with
  | some sph =>
    match colGet sph 0, colGet sph 1, colGet sph 2 with
    | some d, some dec, some ra => some (.a2 (zip3 ra dec d))
    | _, _, _ => none
  | none => none

/-- Dimension-tracking `Jacobian_in_celestial` (no `atleast_2d` in the
source). -/
noncomputable def Jacobian_in_celestial_np (A : NpArr) : Option (List ℝ) :=
  match colGet A 2, colGet A 1 with
  | some d, some theta =>
    some (List.zipWith (fun di ti => di * di * Real.cos ti) d theta)
  | _, _ => none

/-- Dimension-tracking `Jacobian`: promote, convert to celestial, then
`Jacobian_in_celestial`. -/
noncomputable def Jacobian_np (A : NpArr) : Option (List ℝ) :=
  match cartesian_to_celestial_np (atleast_2d A) with
  | some cels => Jacobian_in_celestial_np cels
  | none => none

/-- Dimension-tracking `inv_Jacobian`: promote, `Jacobian_in_celestial`,
element-wise reciprocal. -/
noncomputable def inv_Jacobian_np (A : NpArr) : Option (List EReal) :=
  (Jacobian_in_celestial_np (atleast_2d A)).map fun detJ => detJ.map npRecip

/-- C7: `Jacobian` is exactly `Jacobian_in_celestial` composed with
`cartesian_to_celestial`, it returns one scalar per input row, and in the
dimension-tracking model it acts on the `atleast_2d` promotion of its input, so
a 1-D vector is processed as its one-row promotion. -/
theorem claim_C7 (vs : List Vec3) (v1 : List ℝ) :
    Jacobian vs = Jacobian_in_celestial (cartesian_to_celestial vs) ∧
    (Jacobian vs).length = vs.length ∧
    Jacobian_np (.a1 v1) = Jacobian_np (.a2 [v1]) := by
  refine ⟨rfl, ?_, rfl⟩
  simp [Jacobian, Jacobian_in_celestial, cartesian_to_celestial,
    cartesian_to_spherical]

/-- C10: on a single 1-D 3-vector, the four functions that apply `atleast_2d`
(`celestial_to_cartesian`, `cartesian_to_celestial`, `Jacobian`,
`inv_Jacobian`) treat it exactly as the corresponding 1×3 batch and succeed,
while `cartesian_to_spherical` and `spherical_to_cartesian`, which perform no
promotion, fail at their 2-D column indexing (the input is outside their
domain). -/
theorem claim_C10 (a b c : ℝ) :
    celestial_to_cartesian_np (.a1 [a, b, c]) =
      celestial_to_cartesian_np (.a2 [[a, b, c]]) ∧
    (celestial_to_cartesian_np (.a1 [a, b, c])).isSome = true ∧
    cartesian_to_celestial_np (.a1 [a, b, c]) =
      cartesian_to_celestial_np (.a2 [[a, b, c]]) ∧
    (cartesian_to_celestial_np (.a1 [a, b, c])).isSome = true ∧
    Jacobian_np (.a1 [a, b, c]) = Jacobian_np (.a2 [[a, b, c]]) ∧
    (Jacobian_np (.a1 [a, b, c])).isSome = true ∧
    inv_Jacobian_np (.a1 [a, b, c]) = inv_Jacobian_np (.a2 [[a, b, c]]) ∧
    (inv_Jacobian_np (.a1 [a, b, c])).isSome = true ∧
    cartesian_to_spherical_np (.a1 [a, b, c]) = none ∧
    spherical_to_cartesian_np (.a1 [a, b, c]) = none :=
  ⟨rfl, rfl, rfl, rfl, rfl, rfl, rfl, rfl, rfl, rfl⟩

end Figaro
